import Mathlib

/-!
Verification of the layout-corrector bot core (src/main.rs).

Shallow embedding conventions:
* Rust strings (`&str` / `String`) are modeled as `List Char`, i.e. as the
  sequence of Unicode scalar values the Rust `chars()` iterator yields.
* `f32` scores are modeled as exact rationals `ℚ`; the Rust literals `-1.0`
  and `0.4` become `-1` and `2/5`.  (All ratios in play have tiny numerators
  and denominators, far from any rounding boundary of `f32`.)
* `HashSet<String>` vocabulary membership is modeled as membership in a
  `List (List Char)`; `HashMap<char, char>` built from zipping two alphabet
  strings is modeled as association-list lookup over the zipped lists (the
  key alphabet is duplicate-free, so insertion-order details are moot).
* The HTTP transport is a parameter: a tick receives the outcome of the
  `getUpdates` call as data, and a function `sendOk` saying whether each
  `sendMessage` call succeeds.  `String::to_lowercase` is likewise a
  parameter `lower` of the event-processing code.
* Rust panics (`assert!`, `.unwrap()` on a failed send) are modeled
  explicitly: the assertion in `fix_layout` via an `Option`-returning
  checked variant, the send `.unwrap()` via a `panicked` tick outcome.
-/

/-- The `latin_chars` literal of `fix_layout` (main.rs line 12); the
apostrophe and backtick are written with `\x` escapes. -/
def latin_chars : List Char := "qwertyuiop[]asdfghjkl;\x27zxcvbnm,./?\x60&".data

/-- The `cyrillic_chars` literal of `fix_layout` (main.rs line 13). -/
def cyrillic_chars : List Char := "йцукенгшщзхъфывапролджэячсмитьбю.,ё?".data

/-- The `chars_map` of `fix_layout` (line 15-16): latin zipped with cyrillic. -/
def chars_map : List (Char × Char) := latin_chars.zip cyrillic_chars

/-- One character through `chars_map`: `chars_map.get(&x).map(|y| *y).unwrap_or(x)`. -/
def char_map (x : Char) : Char := (chars_map.lookup x).getD x

/-- The condition of the `assert!` in `fix_layout` (line 14):
`latin_chars.chars().count() == cyrillic_chars.chars().count()`. -/
def alphabets_same_length : Bool := latin_chars.length == cyrillic_chars.length

/-- Body of `fix_layout` (lines 17-20) after the assertion. -/
def fix_layout (src : List Char) : List Char := src.map char_map

/-- `fix_layout` with its `assert!` modeled: a failing assertion is a panic,
modeled as `none`. -/
def fix_layout_checked (src : List Char) : Option (List Char) :=
  if alphabets_same_length then some (fix_layout src) else none

/-- The short-circuit character set of `get_russians_ratio` (line 30):
the 32 Cyrillic letters а..я *without* ё. -/
def russian_chars : List Char := "йцукенгшщзхъфывапролджэячсмитьбю".data

/-- The `punctuation` literal of `get_russians_ratio` (line 35); apostrophe,
backtick and braces are written with `\x` escapes. -/
def punctuation : List Char := "!\"#$%&\x27()*+,-./:;<=>?@[\\]^_\x60\x7b|\x7d~".data

/-- The Unicode `White_Space` code points, the split set of Rust
`str::split_whitespace` / `char::is_whitespace`. -/
def whitespace_chars : List Char :=
  ([0x9, 0xA, 0xB, 0xC, 0xD, 0x20, 0x85, 0xA0, 0x1680,
    0x2000, 0x2001, 0x2002, 0x2003, 0x2004, 0x2005, 0x2006, 0x2007,
    0x2008, 0x2009, 0x200A, 0x2028, 0x2029, 0x202F, 0x205F, 0x3000].map Char.ofNat)

/-- Helper for `split_whitespace`: `cur` accumulates the current token in
reverse. -/
def split_whitespace_aux : List Char → List Char → List (List Char)
  | [], cur => if cur.isEmpty then [] else [cur.reverse]
  | c :: rest, cur =>
    if whitespace_chars.contains c then
      if cur.isEmpty then split_whitespace_aux rest []
      else cur.reverse :: split_whitespace_aux rest []
    else split_whitespace_aux rest (c :: cur)

/-- Rust `str::split_whitespace`: maximal runs of non-whitespace characters;
no empty tokens. -/
def split_whitespace (s : List Char) : List (List Char) :=
  split_whitespace_aux s []

/-- The `WordLanguage` enum (main.rs lines 23-26). -/
inductive WordLanguage where
  | Russian : WordLanguage
  | NotRussian : WordLanguage
deriving DecidableEq

/-- The per-token classifier of `get_russians_ratio` (lines 38-46): remap the
token, strip the punctuation set from the *remapped* token, test vocabulary
membership. -/
def word_language (words : List (List Char)) (s : List Char) : WordLanguage :=
  if words.contains ((fix_layout s).filter (fun c => !(punctuation.contains c))) then
    WordLanguage.Russian
  else WordLanguage.NotRussian

/-- `get_russians_ratio` (main.rs lines 28-64), with `f32` modeled as `ℚ`.
The pair `p` is the `(total_count, russian_count)` fold of lines 47-56. -/
def get_russians_ratio (src : List Char) (words : List (List Char)) : ℚ :=
  if src.any (fun x => russian_chars.contains x) then -1
  else
    let p := ((split_whitespace src).map (fun s => word_language words s)).foldl
      (fun acc elem =>
        (acc.1 + 1,
         acc.2 + match elem with
                 | WordLanguage.Russian => 1
                 | WordLanguage.NotRussian => 0))
      ((0 : Nat), (0 : Nat))
    if p.1 ≠ 0 then (p.2 : ℚ) / (p.1 : ℚ) else 0

/-- The `Chat` struct (main.rs lines 66-72). -/
structure Chat where
  first_name : Option (List Char)
  id : ℤ
  last_name : Option (List Char)
  username : Option (List Char)
deriving DecidableEq

/-- The `Message` struct (main.rs lines 74-80). -/
structure Message where
  chat : Chat
  date : ℤ
  text : Option (List Char)
  message_id : ℤ
deriving DecidableEq

/-- The `Update` struct (main.rs lines 82-86). -/
structure Update where
  message : Option Message
  update_id : ℤ
deriving DecidableEq

/-- The fixed `threshold` of `get_and_process_updates` (line 153): `0.4`. -/
def threshold : ℚ := 2 / 5

/-- One iteration of the event loop body (main.rs lines 149-164), up to but
not including the actual network send: `none` when the event is skipped,
`some (chat_id, message_id, translated)` when `reply_to_message` is invoked
with these arguments.  The `unwrap()`s of lines 155-157 are modeled by the
`match`; its catch-all arm is unreachable because a ratio above the threshold
forces `text` (hence `message`, hence both ids) to be present. -/
def process_update (words : List (List Char)) (lower : List Char → List Char)
    (u : Update) : Option (ℤ × ℤ × List Char) :=
  let message_id := u.message.map (fun x => x.message_id)
  let chat_id := u.message.map (fun x => x.chat.id)
  let text := u.message.bind (fun x => x.text.map (fun y => lower y))
  let ratio := text.map (fun x => get_russians_ratio x words)
  if ratio.getD (-1) > threshold then
    match text, chat_id, message_id with
    | some t, some c, some m => some (c, m, fix_layout (lower t))
    | _, _, _ => none
  else none

/-- Externally visible steps of one tick, in execution order: the cursor
write (line 146) and each invocation of `reply_to_message` (line 158). -/
inductive BotAction where
  | setCursor : ℤ → BotAction
  | send : ℤ → ℤ → List Char → BotAction
deriving DecidableEq

/-- The recoverable error outcomes a tick can surface to `main` (the `?`s of
lines 136 and 142 and the explicit `Err`s of lines 139-140). -/
inductive TickError where
  | transport : TickError
  | okFalse : TickError
  | okMissing : TickError
  | malformed : TickError
deriving DecidableEq

/-- Outcome of one `get_and_process_updates` call.  `cursor` is the value of
`last_confirmed` (a `&mut` the function may have written) when control
leaves the function; `panicked` is the process-killing `unwrap()` panic of
`reply_to_message` (line 115). -/
inductive TickResult where
  | ok : ℤ → List BotAction → TickResult
  | err : TickError → ℤ → TickResult
  | panicked : ℤ → List BotAction → TickResult
deriving DecidableEq

/-- The cursor value when the tick ends (panicked or not). -/
def TickResult.cursor : TickResult → ℤ
  | TickResult.ok c _ => c
  | TickResult.err _ c => c
  | TickResult.panicked c _ => c

/-- The actions the tick performed, in order (an errored tick performed
none: both error sources precede the cursor write and the loop). -/
def TickResult.actions : TickResult → List BotAction
  | TickResult.ok _ a => a
  | TickResult.err _ _ => []
  | TickResult.panicked _ a => a

/-- True when the tick returned `Ok(())` to `main`. -/
def TickResult.isOk : TickResult → Bool
  | TickResult.ok _ _ => true
  | _ => false

/-- The deserialization step of line 142: either the `result` payload is a
well-formed array of updates, or `serde_json::from_value` fails. -/
inductive BatchPayload where
  | malformed : BatchPayload
  | batch : List Update → BatchPayload
deriving DecidableEq

/-- What `get_available_updates` (lines 118-129) hands back: a transport or
JSON-parse failure, or a response value with an optional boolean `ok` field
and a `result` payload. -/
inductive FetchOutcome where
  | transportErr : FetchOutcome
  | response : Option Bool → BatchPayload → FetchOutcome
deriving DecidableEq

/-- The `offset` form field of `get_available_updates` (line 125). -/
def get_updates_offset (last_confirmed : ℤ) : ℤ := last_confirmed + 1

/-- The `for u in updates` loop (main.rs lines 148-165).  `sendOk` tells
whether a given `reply_to_message` call's transport succeeds; on a failed
send the `unwrap()` (line 115) panics, so processing stops right after that
attempted send.  Returns the send actions performed, and whether the loop
panicked. -/
def process_batch (words : List (List Char)) (lower : List Char → List Char)
    (sendOk : ℤ → ℤ → List Char → Bool) : List Update → List BotAction × Bool
  | [] => ([], false)
  | u :: rest =>
    match process_update words lower u with
    | none => process_batch words lower sendOk rest
    | some (c, m, t) =>
      if sendOk c m t then
        let pr := process_batch words lower sendOk rest
        (BotAction.send c m t :: pr.1, pr.2)
      else ([BotAction.send c m t], true)

/-- `get_and_process_updates` (main.rs lines 131-167) for one tick, given the
fetch outcome.  Mirrors the source order: transport `?` (line 136), the `ok`
check (137-141), deserialization (142), then — before the event loop — the
cursor write (144-147), then the event loop (148-165). -/
def tick (words : List (List Char)) (lower : List Char → List Char)
    (sendOk : ℤ → ℤ → List Char → Bool) (last_confirmed : ℤ)
    (fetch : FetchOutcome) : TickResult :=
  match fetch with
  | FetchOutcome.transportErr => TickResult.err TickError.transport last_confirmed
  | FetchOutcome.response okField payload =>
    match okField with
    | some true =>
      match payload with
      | BatchPayload.malformed => TickResult.err TickError.malformed last_confirmed
      | BatchPayload.batch updates =>
        let last_update_id := (updates.getLast?).map (fun x => x.update_id)
        let newCursor := last_update_id.getD last_confirmed
        let cursorActs : List BotAction :=
          match last_update_id with
          | some n => [BotAction.setCursor n]
          | none => []
        let pr := process_batch words lower sendOk updates
        if pr.2 then TickResult.panicked newCursor (cursorActs ++ pr.1)
        else TickResult.ok newCursor (cursorActs ++ pr.1)
    | some false => TickResult.err TickError.okFalse last_confirmed
    | none => TickResult.err TickError.okMissing last_confirmed

/-- The polling loop of `main` (lines 192-198) over a finite schedule of
fetch outcomes: an `Err` from a tick is printed and the loop goes on; a
panic kills the process.  Returns the final cursor and whether the process
is still alive. -/
def run_ticks (words : List (List Char)) (lower : List Char → List Char)
    (sendOk : ℤ → ℤ → List Char → Bool) (cursor : ℤ) :
    List FetchOutcome → ℤ × Bool
  | [] => (cursor, true)
  | f :: fs =>
    match tick words lower sendOk cursor f with
    | TickResult.ok c _ => run_ticks words lower sendOk c fs
    | TickResult.err _ c => run_ticks words lower sendOk c fs
    | TickResult.panicked c _ => (c, false)

/-- The feed guarantee for one fetch, relative to the cursor the offset was
computed from: every update id in a delivered batch exceeds the cursor. -/
def good_fetch (cursor : ℤ) : FetchOutcome → Bool
  | FetchOutcome.response _ (BatchPayload.batch us) =>
    us.all (fun u => decide (cursor < u.update_id))
  | _ => true

/-- The feed guarantee along a whole schedule, each fetch judged against the
cursor the loop holds when issuing it. -/
def good_run (words : List (List Char)) (lower : List Char → List Char)
    (sendOk : ℤ → ℤ → List Char → Bool) (cursor : ℤ) :
    List FetchOutcome → Bool
  | [] => true
  | f :: fs =>
    good_fetch cursor f &&
      good_run words lower sendOk (tick words lower sendOk cursor f).cursor fs

/-- The reply-dispatcher invocations recorded in a trace, in order. -/
def sends_of : List BotAction → List (ℤ × ℤ × List Char)
  | [] => []
  | BotAction.send c m t :: rest => (c, m, t) :: sends_of rest
  | BotAction.setCursor _ :: rest => sends_of rest

/-- Whether an action is a reply-dispatcher invocation. -/
def BotAction.isSend : BotAction → Bool
  | BotAction.send _ _ _ => true
  | BotAction.setCursor _ => false

/-- True when some dispatch happens after a cursor write in the trace, i.e.
exactly when the claim "every dispatch precedes the cursor write" fails. -/
def send_after_set : List BotAction → Bool
  | [] => false
  | BotAction.setCursor _ :: rest => rest.any BotAction.isSend || send_after_set rest
  | BotAction.send _ _ _ :: rest => send_after_set rest

/-! ### Helper lemmas -/

theorem latin_chars_nodup : latin_chars.Nodup := by decide

theorem lookup_zip_not_mem (l₂ : List Char) :
    ∀ (l₁ : List Char) (c : Char), c ∉ l₁ → (l₁.zip l₂).lookup c = none := by
  intro l₁
  induction l₁ generalizing l₂ with
  | nil => intro c _; cases l₂ <;> rfl
  | cons a t ih =>
    intro c hc
    cases l₂ with
    | nil => rfl
    | cons b t₂ =>
      have hne : (c == a) = false := by
        simp only [beq_eq_false_iff_ne]
        intro h
        exact hc (h ▸ List.mem_cons_self a t)
      simp only [List.zip_cons_cons, List.lookup, hne]
      exact ih t₂ c (fun h => hc (List.mem_cons_of_mem a h))

theorem lookup_zip_get :
    ∀ (l₁ l₂ : List Char), l₁.Nodup →
      ∀ (j : ℕ) (h₁ : j < l₁.length) (h₂ : j < l₂.length),
        (l₁.zip l₂).lookup (l₁.get ⟨j, h₁⟩) = some (l₂.get ⟨j, h₂⟩) := by
  intro l₁
  induction l₁ with
  | nil => intro l₂ _ j h₁; exact absurd h₁ (by simp)
  | cons a t ih =>
    intro l₂ hnd j h₁ h₂
    cases l₂ with
    | nil => exact absurd h₂ (by simp)
    | cons b t₂ =>
      cases j with
      | zero => simp [List.zip_cons_cons, List.lookup]
      | succ k =>
        have hmem : t.get ⟨k, by simpa using h₁⟩ ∈ t := List.get_mem _ _ _
        have hne : (t.get ⟨k, by simpa using h₁⟩ == a) = false := by
          simp only [beq_eq_false_iff_ne]
          intro h
          exact (List.nodup_cons.mp hnd).1 (h ▸ hmem)
        simp only [List.zip_cons_cons, List.lookup, List.get_cons_succ, hne]
        exact ih t₂ (List.nodup_cons.mp hnd).2 k (by simpa using h₁) (by simpa using h₂)

theorem char_map_not_mem {c : Char} (h : c ∉ latin_chars) : char_map c = c := by
  unfold char_map chars_map
  rw [lookup_zip_not_mem cyrillic_chars latin_chars c h]
  rfl

theorem char_map_get (j : ℕ) (h₁ : j < latin_chars.length) (h₂ : j < cyrillic_chars.length) :
    char_map (latin_chars.get ⟨j, h₁⟩) = cyrillic_chars.get ⟨j, h₂⟩ := by
  unfold char_map chars_map
  rw [lookup_zip_get latin_chars cyrillic_chars latin_chars_nodup j h₁ h₂]
  rfl

/-! ### C9: the alphabet-length assertion holds and remap is total -/

/-- C9: the two hardcoded alphabets have the same character count (36), so
the `assert!` of `fix_layout` (main.rs line 14) succeeds, the
construction-failure branch is unreachable, and `fix_layout` returns
normally (the unchecked total function) on every input. -/
theorem fix_layout_total_assert :
    alphabets_same_length = true ∧
    latin_chars.length = cyrillic_chars.length ∧
    latin_chars.length = 36 ∧
    ∀ s : List Char, fix_layout_checked s = some (fix_layout s) := by
  refine ⟨by decide, by decide, by decide, ?_⟩
  intro s
  unfold fix_layout_checked
  simp [show alphabets_same_length = true by decide]

/-! ### C4: remap is positional 1:1 substitution -/

/-- C4: `fix_layout` preserves character count, and character-wise: a
character equal to the `j`-th source-alphabet character is replaced by the
`j`-th target-alphabet character, and a character not in the source alphabet
passes through unchanged. -/
theorem fix_layout_positional (s : List Char) :
    (fix_layout s).length = s.length ∧
    ∀ (i : ℕ) (c : Char), s[i]? = some c →
      (∀ (j : ℕ) (hj₁ : j < latin_chars.length) (hj₂ : j < cyrillic_chars.length),
          c = latin_chars.get ⟨j, hj₁⟩ →
          (fix_layout s)[i]? = some (cyrillic_chars.get ⟨j, hj₂⟩)) ∧
      (c ∉ latin_chars → (fix_layout s)[i]? = some c) := by
  constructor
  · exact List.length_map s char_map
  · intro i c hc
    have hmap : (fix_layout s)[i]? = some (char_map c) := by
      unfold fix_layout
      rw [List.getElem?_map, hc]
      rfl
    constructor
    · intro j hj₁ hj₂ hcj
      rw [hmap, hcj, char_map_get j hj₁ hj₂]
    · intro hnot
      rw [hmap, char_map_not_mem hnot]

/-- Witness for C4 at a concrete input: in `fix_layout ['q', '!']` the
letter `q` (position 0 of the source alphabet) becomes `й` (position 0 of
the target alphabet) and `!` (not in the source alphabet) is unchanged. -/
theorem fix_layout_positional_witness :
    (fix_layout (['q', '!'] : List Char)).length = 2 ∧
    (fix_layout (['q', '!'] : List Char))[0]? = some 'й' ∧
    (fix_layout (['q', '!'] : List Char))[1]? = some '!' := by
  have h := fix_layout_positional (['q', '!'] : List Char)
  refine ⟨h.1, ?_, ?_⟩
  · exact (h.2 0 'q' rfl).1 0 (by decide) (by decide) (by decide)
  · exact (h.2 1 '!' rfl).2 (by decide)

/-! ### C10: punctuation is stripped from the remapped token -/

/-- C10: in the per-token vocabulary test, punctuation stripping happens on
the already-remapped token: the word tested is
`(fix_layout token).filter (not punctuation)`.  In particular `,` and `.`
(source-alphabet members that are also punctuation) are first remapped to
`б` and `ю`, which are not punctuation and hence survive stripping; in
general a character whose image under the remap is not punctuation
survives, and only characters still in the punctuation set after remapping
are removed.  Stripping before remapping would differ, as the token `","`
shows. -/
theorem strip_after_remap :
    (∀ (words : List (List Char)) (s : List Char),
        word_language words s = WordLanguage.Russian ↔
        words.contains ((fix_layout s).filter (fun c => !(punctuation.contains c))) = true) ∧
    char_map ',' = 'б' ∧ char_map '.' = 'ю' ∧
    'б' ∉ punctuation ∧ 'ю' ∉ punctuation ∧
    (∀ c : Char, punctuation.contains (char_map c) = false →
        (fix_layout [c]).filter (fun c => !(punctuation.contains c)) = [char_map c]) ∧
    (∀ c : Char, punctuation.contains (char_map c) = true →
        (fix_layout [c]).filter (fun c => !(punctuation.contains c)) = []) ∧
    (fix_layout [',']).filter (fun c => !(punctuation.contains c)) ≠
      fix_layout (([','].filter (fun c => !(punctuation.contains c)))) := by
  refine ⟨?_, by decide, by decide, by decide, by decide, ?_, ?_, by decide⟩
  · intro words s
    unfold word_language
    split
    · next h => exact ⟨fun _ => h, fun _ => rfl⟩
    · next h => exact ⟨fun hr => absurd hr (by decide), fun hc => absurd hc h⟩
  · intro c hc
    simp only [fix_layout, List.map, List.filter_cons, List.filter_nil, hc]
    rfl
  · intro c hc
    simp only [fix_layout, List.map, List.filter_cons, List.filter_nil, hc]
    rfl

/-- Witness for C10 at the concrete characters of the claim: `,` survives
stripping as `б` and `.` survives as `ю`. -/
theorem strip_after_remap_witness :
    (fix_layout [',']).filter (fun c => !(punctuation.contains c)) = ['б'] ∧
    (fix_layout ['.']).filter (fun c => !(punctuation.contains c)) = ['ю'] ∧
    (fix_layout ['!']).filter (fun c => !(punctuation.contains c)) = [] := by
  refine ⟨?_, ?_, ?_⟩
  · have h := strip_after_remap.2.2.2.2.2.1 ',' (by decide)
    rw [h, strip_after_remap.2.1]
  · have h := strip_after_remap.2.2.2.2.2.1 '.' (by decide)
    rw [h, strip_after_remap.2.2.1]
  · exact strip_after_remap.2.2.2.2.2.2.1 '!' (by decide)


/-! ### Evaluation form of the score -/

theorem ratio_fold_count (l : List WordLanguage) (a b : ℕ) :
    l.foldl
      (fun acc elem =>
        (acc.1 + 1,
         acc.2 + match elem with
                 | WordLanguage.Russian => 1
                 | WordLanguage.NotRussian => 0))
      (a, b)
    = (a + l.length, b + l.countP (fun w => decide (w = WordLanguage.Russian))) := by
  induction l generalizing a b with
  | nil => simp
  | cons w t ih =>
    rw [List.foldl_cons, ih, List.countP_cons, List.length_cons]
    cases w <;> simp <;> omega

/-- Closed form of `get_russians_ratio`: sentinel on a short-circuit
character, otherwise matched-token count over total token count (`ℚ`
division by zero is `0`, which agrees with the `total_count != 0` guard of
the source). -/
theorem get_russians_ratio_eq (src : List Char) (words : List (List Char)) :
    get_russians_ratio src words =
      if src.any (fun x => russian_chars.contains x) then -1
      else
        (((split_whitespace src).countP
            (fun t => decide (word_language words t = WordLanguage.Russian))) : ℚ) /
          ((split_whitespace src).length : ℚ) := by
  unfold get_russians_ratio
  cases hany : src.any (fun x => russian_chars.contains x) with
  | true => simp [hany]
  | false =>
    simp only [hany, Bool.false_eq_true, if_false]
    rw [ratio_fold_count, Nat.zero_add, Nat.zero_add, List.countP_map, List.length_map]
    by_cases hz : (split_whitespace src).length = 0
    · rw [List.length_eq_zero] at hz
      simp [hz, Function.comp]
    · rw [if_pos (by simpa using hz)]
      rfl

theorem score_ghbdtn : get_russians_ratio ("ghbdtn".data) ["привет".data] = 1 := by
  rw [get_russians_ratio_eq]
  rw [show ("ghbdtn".data.any fun x => russian_chars.contains x) = false from by decide]
  rw [show (split_whitespace "ghbdtn".data).countP
      (fun t => decide (word_language ["привет".data] t = WordLanguage.Russian)) = 1 from by decide]
  rw [show (split_whitespace "ghbdtn".data).length = 1 from by decide]
  norm_num

theorem score_single_yo : get_russians_ratio ['ё'] [] = 0 := by
  rw [get_russians_ratio_eq]
  rw [show ((['ё'] : List Char).any fun x => russian_chars.contains x) = false from by decide]
  rw [show (split_whitespace ['ё']).countP
      (fun t => decide (word_language [] t = WordLanguage.Russian)) = 0 from by decide]
  norm_num

theorem score_ghbdtn_yo :
    get_russians_ratio ("ghbdtn ё".data) ["привет".data] = 1 / 2 := by
  rw [get_russians_ratio_eq]
  rw [show ("ghbdtn ё".data.any fun x => russian_chars.contains x) = false from by decide]
  rw [show (split_whitespace "ghbdtn ё".data).countP
      (fun t => decide (word_language ["привет".data] t = WordLanguage.Russian)) = 1 from by decide]
  rw [show (split_whitespace "ghbdtn ё".data).length = 2 from by decide]
  norm_num

/-! ### C2: the short-circuit sentinel -/

/-- C2 counterexample: `ё` is a character of the target (native/Cyrillic)
alphabet — it is in `cyrillic_chars`, the target alphabet of the remapper —
yet the string `"ё"` does not get the sentinel `-1`: its score is `0`,
because the hardcoded short-circuit set `russian_chars` omits `ё`.  Worse, a
vocabulary word next to an `ё` still gets flagged: `"ghbdtn ё"` scores
`1/2 > 2/5` against the vocabulary `{привет}`. -/
theorem target_alphabet_sentinel_cex :
    'ё' ∈ cyrillic_chars ∧
    'ё' ∈ (['ё'] : List Char) ∧
    get_russians_ratio ['ё'] [] ≠ -1 ∧
    get_russians_ratio ['ё'] [] = 0 ∧
    get_russians_ratio ("ghbdtn ё".data) ["привет".data] = 1 / 2 ∧
    get_russians_ratio ("ghbdtn ё".data) ["привет".data] > threshold ∧
    ¬ (∀ (src : List Char) (words : List (List Char)),
        (∃ c ∈ src, c ∈ cyrillic_chars) → get_russians_ratio src words = -1) := by
  refine ⟨by decide, by decide, ?_, score_single_yo, score_ghbdtn_yo, ?_, ?_⟩
  · rw [score_single_yo]; norm_num
  · rw [score_ghbdtn_yo]; unfold threshold; norm_num
  · intro hall
    have h0 := hall ['ё'] [] ⟨'ё', by decide, by decide⟩
    rw [score_single_yo] at h0
    exact absurd h0 (by norm_num)

/-- C2 amended: for every input string containing at least one character of
the short-circuit set `russian_chars` (the 32 Cyrillic letters а..я, i.e.
the native alphabet without `ё`), the score is the sentinel `-1`, whatever
the rest of the string is; and the result does not depend on the
vocabulary, i.e. token matching cannot influence it. -/
theorem shortcircuit_sentinel (src : List Char) (words : List (List Char))
    (h : ∃ c ∈ src, c ∈ russian_chars) :
    get_russians_ratio src words = -1 ∧
    ∀ words₂ : List (List Char),
      get_russians_ratio src words = get_russians_ratio src words₂ := by
  obtain ⟨c, hcs, hcr⟩ := h
  have hany : src.any (fun x => russian_chars.contains x) = true := by
    rw [List.any_eq_true]
    exact ⟨c, hcs, by simpa using hcr⟩
  constructor
  · rw [get_russians_ratio_eq, hany]
    rfl
  · intro words₂
    rw [get_russians_ratio_eq, get_russians_ratio_eq, hany]
    simp

/-- Witness for C2 (amended) at a concrete input: a single native letter
anywhere forces the sentinel, whatever garbled vocabulary words surround
it. -/
theorem shortcircuit_sentinel_witness :
    get_russians_ratio ("ghbdtn д".data) ["привет".data] = -1 ∧
    get_russians_ratio ("ghbdtn д".data) ["привет".data] =
      get_russians_ratio ("ghbdtn д".data) [] := by
  have h := shortcircuit_sentinel ("ghbdtn д".data) ["привет".data]
    ⟨'д', by decide, by decide⟩
  exact ⟨h.1, h.2 []⟩

/-! ### C3: the score is the matched-token ratio -/

/-- C3: on input with no short-circuit character the score equals the number
of whitespace-separated tokens whose remapped, punctuation-stripped form is
in the vocabulary, divided by the total number of tokens; and with zero
tokens (empty or whitespace-only input) the score is `0` — neither an error
nor the sentinel. -/
theorem score_is_match_ratio (src : List Char) (words : List (List Char))
    (h : ∀ c ∈ src, c ∉ russian_chars) :
    get_russians_ratio src words =
      (((split_whitespace src).filter (fun t =>
          words.contains ((fix_layout t).filter (fun c => !(punctuation.contains c))))).length : ℚ) /
        (((split_whitespace src).length : ℚ)) ∧
    (split_whitespace src = [] → get_russians_ratio src words = 0) := by
  have hany : src.any (fun x => russian_chars.contains x) = false := by
    rw [List.any_eq_false]
    intro c hc
    simpa using h c hc
  have hcount :
      (split_whitespace src).countP
          (fun t => decide (word_language words t = WordLanguage.Russian)) =
        ((split_whitespace src).filter (fun t =>
          words.contains ((fix_layout t).filter (fun c => !(punctuation.contains c))))).length := by
    rw [← List.countP_eq_length_filter]
    apply List.countP_congr
    intro t _
    unfold word_language
    split
    · next ht => simpa using ht
    · next ht =>
      simp only [decide_eq_true_eq]
      constructor
      · intro hr; exact absurd hr (by decide)
      · intro hw; exact absurd hw (by simpa using ht)
  have hmain := get_russians_ratio_eq src words
  rw [hany] at hmain
  simp only [Bool.false_eq_true, if_false] at hmain
  constructor
  · rw [hmain, hcount]
  · intro hnil
    rw [hmain, hnil]
    simp

/-- Witness for C3 at concrete inputs: a single matched token gives ratio
`1/1 = 1`, and a whitespace-only string gives `0`. -/
theorem score_is_match_ratio_witness :
    get_russians_ratio ("ghbdtn".data) ["привет".data] =
      ((1 : ℚ) / (1 : ℚ)) ∧
    get_russians_ratio ("   ".data) ["привет".data] = 0 := by
  constructor
  · have h := (score_is_match_ratio ("ghbdtn".data) ["привет".data] (by decide)).1
    rw [h]
    rw [show ((split_whitespace "ghbdtn".data).filter (fun t =>
        (["привет".data] : List (List Char)).contains
          ((fix_layout t).filter (fun c => !(punctuation.contains c))))).length = 1 from by decide]
    rw [show (split_whitespace "ghbdtn".data).length = 1 from by decide]
    norm_num
  · exact (score_is_match_ratio ("   ".data) ["привет".data] (by decide)).2 (by decide)

/-! ### Helper lemmas for the event loop -/

theorem getLast?_mem_of_some {α : Type} {l : List α} {a : α}
    (h : l.getLast? = some a) : a ∈ l := by
  cases l with
  | nil => simp at h
  | cons x t =>
    rw [List.getLast?_eq_getLast (x :: t) (by simp)] at h
    exact (Option.some.inj h) ▸ List.getLast_mem (by simp)

theorem process_update_skip (words : List (List Char)) (lower : List Char → List Char)
    (u : Update) (h : u.message.bind (fun x => x.text.map (fun y => lower y)) = none) :
    process_update words lower u = none := by
  simp only [process_update, h, Option.map_none', Option.getD_none]
  split <;> rfl

theorem process_update_dispatch (words : List (List Char)) (lower : List Char → List Char)
    (u : Update) (m : Message) (t : List Char)
    (hm : u.message = some m) (ht : m.text = some t)
    (hr : get_russians_ratio (lower t) words > threshold) :
    process_update words lower u =
      some (m.chat.id, m.message_id, fix_layout (lower (lower t))) := by
  simp only [process_update, hm, ht, Option.some_bind, Option.map_some', Option.getD_some]
  rw [if_pos hr]

theorem process_update_low (words : List (List Char)) (lower : List Char → List Char)
    (u : Update) (m : Message) (t : List Char)
    (hm : u.message = some m) (ht : m.text = some t)
    (hr : ¬ get_russians_ratio (lower t) words > threshold) :
    process_update words lower u = none := by
  simp only [process_update, hm, ht, Option.some_bind, Option.map_some', Option.getD_some]
  rw [if_neg hr]

theorem process_batch_sends_only (words : List (List Char)) (lower : List Char → List Char)
    (sendOk : ℤ → ℤ → List Char → Bool) :
    ∀ us : List Update, ∀ a ∈ (process_batch words lower sendOk us).1, a.isSend = true := by
  intro us
  induction us with
  | nil => intro a ha; exact absurd ha (by simp [process_batch])
  | cons u rest ih =>
    intro a ha
    unfold process_batch at ha
    cases hpu : process_update words lower u with
    | none => rw [hpu] at ha; exact ih a ha
    | some v =>
      obtain ⟨c, m, t⟩ := v
      rw [hpu] at ha
      dsimp only at ha
      cases hs : sendOk c m t with
      | true =>
        rw [hs] at ha
        simp only [if_true] at ha
        rcases List.mem_cons.mp ha with h | h
        · rw [h]; rfl
        · exact ih a h
      | false =>
        rw [hs] at ha
        simp only [Bool.false_eq_true, if_false, List.mem_singleton] at ha
        rw [ha]; rfl

theorem process_batch_all_sent (words : List (List Char)) (lower : List Char → List Char)
    (sendOk : ℤ → ℤ → List Char → Bool)
    (hsend : ∀ c m t, sendOk c m t = true) :
    ∀ us : List Update,
      process_batch words lower sendOk us =
        ((us.filterMap (process_update words lower)).map
          (fun p => BotAction.send p.1 p.2.1 p.2.2), false) := by
  intro us
  induction us with
  | nil => rfl
  | cons u rest ih =>
    unfold process_batch
    rw [List.filterMap_cons]
    cases hpu : process_update words lower u with
    | none => rw [ih]
    | some v =>
      obtain ⟨c, m, t⟩ := v
      dsimp only
      rw [hsend c m t]
      simp only [if_true, ih, List.map_cons]

theorem sends_of_append (a b : List BotAction) :
    sends_of (a ++ b) = sends_of a ++ sends_of b := by
  induction a with
  | nil => rfl
  | cons x t ih => cases x <;> simp [sends_of, ih]

theorem sends_of_map_send (l : List (ℤ × ℤ × List Char)) :
    sends_of (l.map (fun p => BotAction.send p.1 p.2.1 p.2.2)) = l := by
  induction l with
  | nil => rfl
  | cons x t ih => simp [sends_of, ih]

theorem tick_cursor_batch (words : List (List Char)) (lower : List Char → List Char)
    (sendOk : ℤ → ℤ → List Char → Bool) (cursor : ℤ) (us : List Update) :
    (tick words lower sendOk cursor
        (FetchOutcome.response (some true) (BatchPayload.batch us))).cursor =
      ((us.getLast?).map (fun x => x.update_id)).getD cursor := by
  unfold tick
  dsimp only
  split <;> rfl

/-! ### C1: dispatch exactly once per qualifying event -/

/-- C1: in a successfully fetched and deserialized batch, provided every
reply-send succeeds (`hsend`; a failing send panics, see the reply-failure
analysis) and lowercasing is idempotent (`hlower`; the source lowercases the
already-lowercased text a second time), the Reply Dispatcher is invoked
exactly once per qualifying event, in batch order — the trace of sends is
exactly `filterMap` of the per-event decision — and an event qualifies if
and only if its text, conversation id and origin message id are present and
the score of its lowercased text strictly exceeds the threshold `2/5`; the
dispatched arguments are the conversation id, the origin message id and the
remapped lowercased text.  Events skipped for dispatch still count for
cursor advancement: the tick's cursor is the last update id of the batch,
dispatch-eligible or not. -/
theorem dispatch_exactly_once (words : List (List Char)) (lower : List Char → List Char)
    (sendOk : ℤ → ℤ → List Char → Bool)
    (hsend : ∀ c m t, sendOk c m t = true)
    (hlower : ∀ s, lower (lower s) = lower s)
    (cursor : ℤ) (us : List Update) :
    sends_of ((tick words lower sendOk cursor
        (FetchOutcome.response (some true) (BatchPayload.batch us))).actions) =
      us.filterMap (process_update words lower) ∧
    (∀ u : Update,
      (process_update words lower u).isSome = true ↔
        ∃ (m : Message) (t : List Char),
          u.message = some m ∧
          (u.message.map (fun x => x.chat.id)).isSome = true ∧
          (u.message.map (fun x => x.message_id)).isSome = true ∧
          m.text = some t ∧
          get_russians_ratio (lower t) words > threshold) ∧
    (∀ (u : Update) (m : Message) (t : List Char),
      u.message = some m → m.text = some t →
      get_russians_ratio (lower t) words > threshold →
      process_update words lower u =
        some (m.chat.id, m.message_id, fix_layout (lower t))) ∧
    ((tick words lower sendOk cursor
        (FetchOutcome.response (some true) (BatchPayload.batch us))).cursor =
      ((us.getLast?).map (fun x => x.update_id)).getD cursor) := by
  refine ⟨?_, ?_, ?_, tick_cursor_batch words lower sendOk cursor us⟩
  · unfold tick
    dsimp only
    rw [process_batch_all_sent words lower sendOk hsend us]
    dsimp only
    simp only [Bool.false_eq_true, if_false, TickResult.actions]
    rw [sends_of_append, sends_of_map_send]
    cases (us.getLast?).map (fun x => x.update_id) <;> simp [sends_of]
  · intro u
    cases hm : u.message with
    | none =>
      rw [process_update_skip words lower u (by rw [hm]; rfl)]
      simp [hm]
    | some m =>
      cases ht : m.text with
      | none =>
        rw [process_update_skip words lower u (by rw [hm, Option.some_bind, ht]; rfl)]
        simp only [Option.isSome_none, Bool.false_eq_true, false_iff]
        rintro ⟨m₂, t₂, hm₂, -, -, ht₂, -⟩
        cases Option.some.inj hm₂
        rw [ht] at ht₂
        exact Option.noConfusion ht₂
      | some t =>
        by_cases hr : get_russians_ratio (lower t) words > threshold
        · rw [process_update_dispatch words lower u m t hm ht hr]
          simp only [Option.isSome_some, true_iff]
          exact ⟨m, t, rfl, rfl, rfl, ht, hr⟩
        · rw [process_update_low words lower u m t hm ht hr]
          simp only [Option.isSome_none, Bool.false_eq_true, false_iff]
          rintro ⟨m₂, t₂, hm₂, -, -, ht₂, hr₂⟩
          cases Option.some.inj hm₂
          rw [ht] at ht₂
          cases Option.some.inj ht₂
          exact hr hr₂
  · intro u m t hm ht hr
    rw [process_update_dispatch words lower u m t hm ht hr, hlower t]

/-- Witness for C1 at a concrete batch: the single event with text
`"ghbdtn"` (score `1 > 2/5` against the vocabulary `{привет}`) triggers
exactly one dispatch `(10, 20, "привет")`, and the cursor advances to its
update id `1`. -/
theorem dispatch_exactly_once_witness :
    sends_of ((tick ["привет".data] id (fun _ _ _ => true) 0
        (FetchOutcome.response (some true) (BatchPayload.batch
          [⟨some ⟨⟨none, 10, none, none⟩, 0, some ("ghbdtn".data), 20⟩, 1⟩]))).actions) =
      [(10, 20, "привет".data)] ∧
    (tick ["привет".data] id (fun _ _ _ => true) 0
        (FetchOutcome.response (some true) (BatchPayload.batch
          [⟨some ⟨⟨none, 10, none, none⟩, 0, some ("ghbdtn".data), 20⟩, 1⟩]))).cursor = 1 := by
  have h := dispatch_exactly_once ["привет".data] id (fun _ _ _ => true)
    (fun _ _ _ => rfl) (fun _ => rfl) 0
    [⟨some ⟨⟨none, 10, none, none⟩, 0, some ("ghbdtn".data), 20⟩, 1⟩]
  have hpu : process_update ["привет".data] id
      (⟨some ⟨⟨none, 10, none, none⟩, 0, some ("ghbdtn".data), 20⟩, 1⟩ : Update) =
      some (10, 20, fix_layout (id ("ghbdtn".data))) :=
    h.2.2.1 ⟨some ⟨⟨none, 10, none, none⟩, 0, some ("ghbdtn".data), 20⟩, 1⟩
      ⟨⟨none, 10, none, none⟩, 0, some ("ghbdtn".data), 20⟩ ("ghbdtn".data) rfl rfl
      (by rw [show id ("ghbdtn".data) = "ghbdtn".data from rfl, score_ghbdtn]
          unfold threshold
          norm_num)
  constructor
  · rw [h.1, List.filterMap_cons, hpu]
    rw [show fix_layout (id ("ghbdtn".data)) = "привет".data from by decide]
    rfl
  · exact h.2.2.2

/-! ### C5: cursor monotonicity and batch maximum -/

theorem le_of_getLast?_sorted :
    ∀ l : List ℤ, l.Pairwise (· < ·) →
      ∀ m : ℤ, l.getLast? = some m → ∀ x ∈ l, x ≤ m := by
  intro l
  induction l with
  | nil => intro _ m hm; simp at hm
  | cons a t ih =>
    intro hp m hm x hx
    cases t with
    | nil =>
      have hma : m = a := by simpa using hm.symm
      rw [List.mem_singleton.mp hx, hma]
    | cons b t₂ =>
      rw [List.getLast?_cons_cons] at hm
      have hmem : m ∈ b :: t₂ := getLast?_mem_of_some hm
      rcases List.mem_cons.mp hx with h | h
      · exact h ▸ le_of_lt ((List.pairwise_cons.mp hp).1 m hmem)
      · exact ih (List.pairwise_cons.mp hp).2 m hm x h

theorem tick_cursor_ge (words : List (List Char)) (lower : List Char → List Char)
    (sendOk : ℤ → ℤ → List Char → Bool) (cursor : ℤ) (f : FetchOutcome)
    (h : good_fetch cursor f = true) :
    cursor ≤ (tick words lower sendOk cursor f).cursor := by
  cases f with
  | transportErr => simp [tick, TickResult.cursor]
  | response okField payload =>
    cases okField with
    | none => simp [tick, TickResult.cursor]
    | some b =>
      cases b with
      | false => simp [tick, TickResult.cursor]
      | true =>
        cases payload with
        | malformed => simp [tick, TickResult.cursor]
        | batch us =>
          rw [tick_cursor_batch]
          cases hus : us.getLast? with
          | none => simp
          | some u =>
            simp only [Option.map_some', Option.getD_some]
            have hu : u ∈ us := getLast?_mem_of_some hus
            have hall : us.all (fun u => decide (cursor < u.update_id)) = true := h
            have hd := List.all_eq_true.mp hall u hu
            exact le_of_lt (of_decide_eq_true hd)

theorem run_ticks_ge (words : List (List Char)) (lower : List Char → List Char)
    (sendOk : ℤ → ℤ → List Char → Bool) :
    ∀ (fs : List FetchOutcome) (cursor : ℤ),
      good_run words lower sendOk cursor fs = true →
      cursor ≤ (run_ticks words lower sendOk cursor fs).1 := by
  intro fs
  induction fs with
  | nil => intro cursor _; exact le_refl cursor
  | cons f fs ih =>
    intro cursor hg
    unfold good_run at hg
    rw [Bool.and_eq_true] at hg
    obtain ⟨h1, h2⟩ := hg
    have hle := tick_cursor_ge words lower sendOk cursor f h1
    unfold run_ticks
    cases htick : tick words lower sendOk cursor f with
    | ok c a =>
      rw [htick] at hle h2
      exact le_trans hle (ih c h2)
    | err e c =>
      rw [htick] at hle h2
      exact le_trans hle (ih c h2)
    | panicked c a =>
      rw [htick] at hle
      exact hle

/-- C5: under the feed guarantee the cursor never decreases across ticks
(`good_run` states that every delivered batch only carries sequence ids
above the cursor the fetch was issued with); a successfully fetched
non-empty batch whose ids are ascending and above the cursor moves the
cursor to exactly the maximum sequence id of the batch (it is an id of the
batch and bounds all of them); a successfully fetched empty batch leaves
the cursor unchanged. -/
theorem cursor_monotone_max (words : List (List Char)) (lower : List Char → List Char)
    (sendOk : ℤ → ℤ → List Char → Bool) (cursor : ℤ) :
    (∀ fs : List FetchOutcome,
      good_run words lower sendOk cursor fs = true →
      cursor ≤ (run_ticks words lower sendOk cursor fs).1) ∧
    (∀ us : List Update,
      (us.map (fun u => u.update_id)).Pairwise (· < ·) →
      (∀ u ∈ us, cursor < u.update_id) →
      us ≠ [] →
      ((tick words lower sendOk cursor
            (FetchOutcome.response (some true) (BatchPayload.batch us))).cursor
          ∈ us.map (fun u => u.update_id) ∧
        ∀ i ∈ us.map (fun u => u.update_id),
          i ≤ (tick words lower sendOk cursor
            (FetchOutcome.response (some true) (BatchPayload.batch us))).cursor)) ∧
    (tick words lower sendOk cursor
        (FetchOutcome.response (some true) (BatchPayload.batch []))).cursor = cursor := by
  refine ⟨fun fs hg => run_ticks_ge words lower sendOk fs cursor hg, ?_, ?_⟩
  · intro us hsort hgt hne
    rw [tick_cursor_batch, List.getLast?_eq_getLast us hne]
    simp only [Option.map_some', Option.getD_some]
    constructor
    · exact List.mem_map_of_mem _ (List.getLast_mem hne)
    · intro i hi
      have hql : (us.map (fun u => u.update_id)).getLast? =
          some ((us.getLast hne).update_id) := by
        rw [List.getLast?_map, List.getLast?_eq_getLast us hne]
        rfl
      exact le_of_getLast?_sorted _ hsort _ hql i hi
  · rw [tick_cursor_batch]
    rfl

/-- Witness for C5 at concrete runs: a good one-tick run from cursor `0`
with batch ids `{5}` keeps `0 ≤` final cursor; a batch with ascending ids
`5, 9` moves the cursor to an id of the batch bounding both; the empty
batch leaves the cursor at `0`. -/
theorem cursor_monotone_max_witness :
    (0 : ℤ) ≤ (run_ticks [] id (fun _ _ _ => true) 0
        [FetchOutcome.response (some true)
          (BatchPayload.batch [⟨none, 5⟩])]).1 ∧
    ((tick [] id (fun _ _ _ => true) 0
        (FetchOutcome.response (some true)
          (BatchPayload.batch [⟨none, 5⟩, ⟨none, 9⟩]))).cursor
        ∈ ([⟨none, 5⟩, ⟨none, 9⟩] : List Update).map (fun u => u.update_id) ∧
      ∀ i ∈ ([⟨none, 5⟩, ⟨none, 9⟩] : List Update).map (fun u => u.update_id),
        i ≤ (tick [] id (fun _ _ _ => true) 0
          (FetchOutcome.response (some true)
            (BatchPayload.batch [⟨none, 5⟩, ⟨none, 9⟩]))).cursor) ∧
    (tick [] id (fun _ _ _ => true) 0
        (FetchOutcome.response (some true) (BatchPayload.batch []))).cursor = 0 := by
  have h := cursor_monotone_max [] id (fun _ _ _ => true) 0
  refine ⟨h.1 _ ?_, h.2.1 [⟨none, 5⟩, ⟨none, 9⟩] ?_ ?_ ?_, h.2.2⟩
  · have hg : good_run [] id (fun _ _ _ => true) 0
        [FetchOutcome.response (some true) (BatchPayload.batch [⟨none, 5⟩])] =
        good_fetch 0 (FetchOutcome.response (some true)
          (BatchPayload.batch [⟨none, 5⟩])) := by
      simp [good_run]
    rw [hg]
    decide
  · decide
  · decide
  · decide

/-! ### C6: fetch/feed/deserialization errors keep the cursor -/

/-- C6: a transport error, a feed-level `ok = false`, a missing `ok` field,
and a malformed batch payload each make the tick return an error to the
caller with the cursor untouched; the polling loop swallows the error and
continues, so the next tick starts from—and computes its fetch offset
from—exactly the same cursor value. -/
theorem fetch_error_keeps_cursor (words : List (List Char)) (lower : List Char → List Char)
    (sendOk : ℤ → ℤ → List Char → Bool) (cursor : ℤ) :
    (tick words lower sendOk cursor FetchOutcome.transportErr =
      TickResult.err TickError.transport cursor) ∧
    (∀ p : BatchPayload,
      tick words lower sendOk cursor (FetchOutcome.response (some false) p) =
        TickResult.err TickError.okFalse cursor) ∧
    (∀ p : BatchPayload,
      tick words lower sendOk cursor (FetchOutcome.response none p) =
        TickResult.err TickError.okMissing cursor) ∧
    (tick words lower sendOk cursor
        (FetchOutcome.response (some true) BatchPayload.malformed) =
      TickResult.err TickError.malformed cursor) ∧
    (∀ (f : FetchOutcome) (fs : List FetchOutcome) (e : TickError),
      tick words lower sendOk cursor f = TickResult.err e cursor →
      run_ticks words lower sendOk cursor (f :: fs) =
        run_ticks words lower sendOk cursor fs ∧
      get_updates_offset ((tick words lower sendOk cursor f).cursor) =
        get_updates_offset cursor) := by
  refine ⟨rfl, fun p => rfl, fun p => rfl, rfl, ?_⟩
  intro f fs e htick
  constructor
  · simp only [run_ticks, htick]
  · rw [htick]
    rfl

/-- Witness for C6: after a failed tick the loop continues from the same
cursor and the next fetch offset is unchanged. -/
theorem fetch_error_keeps_cursor_witness :
    run_ticks [] id (fun _ _ _ => true) 3 [FetchOutcome.transportErr] =
      run_ticks [] id (fun _ _ _ => true) 3 [] ∧
    get_updates_offset ((tick [] id (fun _ _ _ => true) 3
        FetchOutcome.transportErr).cursor) = get_updates_offset 3 := by
  have h := fetch_error_keeps_cursor [] id (fun _ _ _ => true) 3
  exact h.2.2.2.2 FetchOutcome.transportErr [] TickError.transport h.1

/-! ### C7: a failed reply send panics the process -/

/-- C7 shows the code contradicting the fire-and-forget contract: with the
vocabulary `{привет}` and one event (update id `1`, chat `10`, message
`20`, text `"ghbdtn"`, score `1 > 2/5`), a reply-send transport failure
hits the `unwrap()` of `reply_to_message` (main.rs line 115) and the whole
process panics: the tick ends `panicked` after the single send attempt (no
retry), and the polling loop is dead — a subsequent scheduled tick never
runs. -/
theorem reply_failure_panics :
    tick ["привет".data] id (fun _ _ _ => false) 0
        (FetchOutcome.response (some true) (BatchPayload.batch
          [⟨some ⟨⟨none, 10, none, none⟩, 0, some ("ghbdtn".data), 20⟩, 1⟩])) =
      TickResult.panicked 1
        [BotAction.setCursor 1, BotAction.send 10 20 ("привет".data)] ∧
    (run_ticks ["привет".data] id (fun _ _ _ => false) 0
        [FetchOutcome.response (some true) (BatchPayload.batch
          [⟨some ⟨⟨none, 10, none, none⟩, 0, some ("ghbdtn".data), 20⟩, 1⟩]),
         FetchOutcome.response (some true) (BatchPayload.batch [])]) = (1, false) := by
  have hpu : process_update ["привет".data] id
      (⟨some ⟨⟨none, 10, none, none⟩, 0, some ("ghbdtn".data), 20⟩, 1⟩ : Update) =
      some (10, 20, "привет".data) := by
    rw [process_update_dispatch ["привет".data] id
      ⟨some ⟨⟨none, 10, none, none⟩, 0, some ("ghbdtn".data), 20⟩, 1⟩
      ⟨⟨none, 10, none, none⟩, 0, some ("ghbdtn".data), 20⟩ ("ghbdtn".data) rfl rfl
      (by rw [show id ("ghbdtn".data) = "ghbdtn".data from rfl, score_ghbdtn]
          unfold threshold
          norm_num)]
    rw [show fix_layout (id (id ("ghbdtn".data))) = "привет".data from by decide]
  have hpb : process_batch ["привет".data] id (fun _ _ _ => false)
      [⟨some ⟨⟨none, 10, none, none⟩, 0, some ("ghbdtn".data), 20⟩, 1⟩] =
      ([BotAction.send 10 20 ("привет".data)], true) := by
    unfold process_batch
    rw [hpu]
    rfl
  have htick : tick ["привет".data] id (fun _ _ _ => false) 0
      (FetchOutcome.response (some true) (BatchPayload.batch
        [⟨some ⟨⟨none, 10, none, none⟩, 0, some ("ghbdtn".data), 20⟩, 1⟩])) =
      TickResult.panicked 1
        [BotAction.setCursor 1, BotAction.send 10 20 ("привет".data)] := by
    unfold tick
    dsimp only
    rw [hpb]
    rfl
  refine ⟨htick, ?_⟩
  simp only [run_ticks, htick]

/-! ### C8: the cursor write precedes the dispatch loop -/

/-- C8 counterexample: in a successfully processed non-empty batch the
cursor write happens *before* the per-event dispatch steps, not after the
batch is fully processed: the concrete tick below succeeds and its trace is
`setCursor` first, then the send, so a send appears after the cursor write
(`send_after_set` is `true`), refuting the claim that every per-event step
happens before the cursor is set. -/
theorem cursor_set_before_dispatch_cex :
    tick ["привет".data] id (fun _ _ _ => true) 0
        (FetchOutcome.response (some true) (BatchPayload.batch
          [⟨some ⟨⟨none, 10, none, none⟩, 0, some ("ghbdtn".data), 20⟩, 1⟩])) =
      TickResult.ok 1
        [BotAction.setCursor 1, BotAction.send 10 20 ("привет".data)] ∧
    send_after_set
        [BotAction.setCursor 1, BotAction.send 10 20 ("привет".data)] = true ∧
    ¬ (∀ (words : List (List Char)) (lower : List Char → List Char)
        (sendOk : ℤ → ℤ → List Char → Bool) (cursor : ℤ) (us : List Update),
        send_after_set ((tick words lower sendOk cursor
          (FetchOutcome.response (some true) (BatchPayload.batch us))).actions) =
          false) := by
  have hpu : process_update ["привет".data] id
      (⟨some ⟨⟨none, 10, none, none⟩, 0, some ("ghbdtn".data), 20⟩, 1⟩ : Update) =
      some (10, 20, "привет".data) := by
    rw [process_update_dispatch ["привет".data] id
      ⟨some ⟨⟨none, 10, none, none⟩, 0, some ("ghbdtn".data), 20⟩, 1⟩
      ⟨⟨none, 10, none, none⟩, 0, some ("ghbdtn".data), 20⟩ ("ghbdtn".data) rfl rfl
      (by rw [show id ("ghbdtn".data) = "ghbdtn".data from rfl, score_ghbdtn]
          unfold threshold
          norm_num)]
    rw [show fix_layout (id (id ("ghbdtn".data))) = "привет".data from by decide]
  have hpb : process_batch ["привет".data] id (fun _ _ _ => true)
      [⟨some ⟨⟨none, 10, none, none⟩, 0, some ("ghbdtn".data), 20⟩, 1⟩] =
      ([BotAction.send 10 20 ("привет".data)], false) := by
    unfold process_batch
    rw [hpu]
    rfl
  have htick : tick ["привет".data] id (fun _ _ _ => true) 0
      (FetchOutcome.response (some true) (BatchPayload.batch
        [⟨some ⟨⟨none, 10, none, none⟩, 0, some ("ghbdtn".data), 20⟩, 1⟩])) =
      TickResult.ok 1
        [BotAction.setCursor 1, BotAction.send 10 20 ("привет".data)] := by
    unfold tick
    dsimp only
    rw [hpb]
    rfl
  refine ⟨htick, by decide, ?_⟩
  intro hall
  have h2 := hall ["привет".data] id (fun _ _ _ => true) 0
    [⟨some ⟨⟨none, 10, none, none⟩, 0, some ("ghbdtn".data), 20⟩, 1⟩]
  rw [htick] at h2
  exact absurd h2 (by decide)

/-- C8 amended: the cursor write is the *first* externally visible step of
a successfully deserialized non-empty batch: the trace is
`setCursor (last update id)` followed only by sends.  So an abort mid-batch
happens with the cursor already advanced to the batch's last sequence id
(at-most-once, not at-least-once, delivery on a mid-batch crash); errored
fetches produce no actions at all, and a mid-batch panic indeed leaves the
cursor at the batch's last id, as the `panicked` outcome records. -/
theorem cursor_set_first (words : List (List Char)) (lower : List Char → List Char)
    (sendOk : ℤ → ℤ → List Char → Bool) (cursor : ℤ) (us : List Update)
    (hne : us ≠ []) :
    ∃ rest : List BotAction,
      (tick words lower sendOk cursor
          (FetchOutcome.response (some true) (BatchPayload.batch us))).actions =
        BotAction.setCursor ((us.getLast hne).update_id) :: rest ∧
      (∀ a ∈ rest, a.isSend = true) ∧
      (tick words lower sendOk cursor
          (FetchOutcome.response (some true) (BatchPayload.batch us))).cursor =
        (us.getLast hne).update_id := by
  refine ⟨(process_batch words lower sendOk us).1, ?_, ?_, ?_⟩
  · unfold tick
    dsimp only
    rw [List.getLast?_eq_getLast us hne]
    split <;> rfl
  · exact process_batch_sends_only words lower sendOk us
  · rw [tick_cursor_batch, List.getLast?_eq_getLast us hne]
    rfl

/-- Witness for C8 (amended) at a concrete batch: the trace starts with the
cursor write. -/
theorem cursor_set_first_witness :
    ∃ rest : List BotAction,
      (tick [] id (fun _ _ _ => true) 0
          (FetchOutcome.response (some true)
            (BatchPayload.batch [⟨none, 7⟩]))).actions =
        BotAction.setCursor 7 :: rest ∧
      (∀ a ∈ rest, a.isSend = true) ∧
      (tick [] id (fun _ _ _ => true) 0
          (FetchOutcome.response (some true)
            (BatchPayload.batch [⟨none, 7⟩]))).cursor = 7 :=
  cursor_set_first [] id (fun _ _ _ => true) 0 [⟨none, 7⟩] (by simp)
